import Mathlib

/-!
Verification of the streaming archive writer in `src/compression.h`
(namespace `compression`, class `Writer`).

The writer's observable state (file queue, input stream, read buffer,
current entry, encoder handle) is embedded as the structure `WriterState`.
The two external collaborators are embedded as an environment `Env`:

* the filesystem (`lstat64`, `std::ifstream::open`/`readsome`/`eof`) is a
  map from paths to an `FSFile` giving the `lstat64` result, whether an
  `open` for reading succeeds, and the byte stream the file yields;
* the libarchive encoder (`archive_write_header`, `archive_write_data`,
  `archive_write_finish_entry`) is an `EncSpec`: whether header writes
  succeed and an oracle giving the return value of the k-th
  `archive_write_data` call (which per the libarchive contract may accept
  fewer bytes than offered, or be negative to signal failure).  The bytes
  the encoder actually accepted are recorded in an event log `encLog`,
  which stands for the archive being produced.

`size_t` subtraction (`entry.remainingSize -= written`) is modeled
explicitly modulo 2^64 by `sub64`.  The body of the do/while loop of
`Writer::write` is `stepBody`; the blocking loop is the fuel-indexed
`writeBlockAux`.  `write` covers both modes, returning `none` on fuel
exhaustion (the C++ loop simply keeps running).
-/

namespace compression

/-- The error codes of `compression::Error` (compression.h lines 17-25). -/
inductive Error where
  | InitFailed
  | SetFormatFailed
  | SetCompressionFailed
  | OpenFailed
  | WriteFailed
  | StatFailed
  | FileChanged
deriving DecidableEq, Repr

/-- The modes of `compression::Mode` (compression.h lines 34-37). -/
inductive Mode where
  | NonBlock
  | Block
deriving DecidableEq, Repr

/-- The states of `compression::State` (compression.h lines 48-51). -/
inductive State where
  | InProgress
  | Finished
deriving DecidableEq, Repr

/-- Model of a path's filesystem behaviour: the result of `lstat64`
(`none` = lstat fails, `some sz` = succeeds reporting size `sz`), whether
opening the path for reading succeeds, and the byte stream an open file
yields.  A shrunk/grown file is one whose `content` length differs from
the `lstat` size. -/
structure FSFile where
  lstatResult : Option Nat
  openOk : Bool
  content : List Nat
deriving DecidableEq, Repr

/-- Model of `std::ifstream`: open flag, the byte stream of the opened
file, the read position, and the eof bit.  `eofFlag` is set only when a
read is attempted with no byte available (C++ streams set `eofbit` lazily,
on the failing read attempt, not on reading the last byte). -/
structure InputStream where
  isOpen : Bool
  content : List Nat
  pos : Nat
  eofFlag : Bool
deriving DecidableEq, Repr

/-- `std::ifstream::close`: only the open flag changes (stream state bits
such as `eofbit` are not cleared by `close`). -/
def InputStream.close (st : InputStream) : InputStream :=
  { st with isOpen := false }

/-- `std::ifstream::readsome(buf, n)`: if no byte is available
(`in_avail` is -1 at end of data) set `eofbit` and read nothing;
otherwise read `min n avail` bytes and advance.  Returns the bytes read
and the updated stream. -/
def InputStream.readsome (st : InputStream) (n : Nat) : List Nat × InputStream :=
  if st.content.length ≤ st.pos then
    ([], { st with eofFlag := true })
  else
    let m := min n (st.content.length - st.pos)
    ((st.content.drop st.pos).take m, { st with pos := st.pos + m })

/-- Model of `Writer::Buffer` (compression.h lines 288-305): `data` holds
the valid region `[0, filled)` of the `char` array, `size` its capacity,
`filled` / `extracted` the two offsets.  NOTE: the C++ constructor
`Buffer(size_t size)` initializes only `data` and `size`; `filled` and
`extracted` are left indeterminate (see `mkWriter`). -/
structure Buffer where
  data : List Nat
  size : Nat
  filled : Nat
  extracted : Nat
deriving DecidableEq, Repr

/-- Model of `Writer::Entry` (compression.h lines 332-336): whether the
`archive_entry` header handle is live, and the two `size_t` sizes.  The
C++ default constructor leaves `totalSize` / `remainingSize`
indeterminate (see `mkWriter`). -/
structure EntryState where
  headerLive : Bool
  totalSize : Nat
  remainingSize : Nat
deriving DecidableEq, Repr

/-- One observable interaction with the libarchive encoder: an entry
header (`archive_write_header` with the entry's pathname and size; the
fixed uid/gid/mode/filetype constants of lines 207-210 are elided), a
data write (`archive_write_data`, recording the bytes the encoder
accepted), or `archive_write_finish_entry`. -/
inductive ArchiveEvent where
  | header (path : String) (size : Nat)
  | data (bytes : List Nat)
  | finishEntry
deriving DecidableEq, Repr

/-- Model of the libarchive write handle's behaviour: whether
`archive_write_header` returns `ARCHIVE_OK`, and the value returned by
the k-th `archive_write_data` call when offered `n` bytes (negative
signals failure; the contract bounds a nonnegative return by `n`, see
`EncSpec.WF`). -/
structure EncSpec where
  headerOk : Bool
  accept : Nat → Nat → Int

/-- The libarchive contract for `archive_write_data`: it never reports
more bytes written than it was offered. -/
def EncSpec.WF (e : EncSpec) : Prop :=
  ∀ k n, e.accept k n ≤ (n : Int)

/-- The environment of the writer: the filesystem and the encoder. -/
structure Env where
  fs : String → FSFile
  enc : EncSpec

/-- The observable state of a `compression::Writer`: the pending file
queue (`std::queue<std::string> files`, front = head), the archive handle
liveness, the input stream, the read buffer, the current entry, the
encoder event log (the archive produced so far) and a counter of
`archive_write_data` calls (indexing the `accept` oracle). -/
structure WriterState where
  entry : EntryState
  archiveLive : Bool
  files : List String
  input : InputStream
  buffer : Buffer
  encLog : List ArchiveEvent
  dataCalls : Nat
deriving DecidableEq, Repr

/-- 2^64, the modulus of `size_t` arithmetic. -/
def two64 : Nat := 2 ^ 64

/-- `size_t` subtraction `a - b` modulo 2^64 (wraps around when
`b > a`), as in `entry.remainingSize -= written`. -/
def sub64 (a b : Nat) : Nat :=
  (a + (two64 - b % two64)) % two64

/-- Model of the writer freshly produced by `Writer::open` (constructor
at line 343 plus a successful `open()`): empty queue, closed input, empty
log, live archive handle.  The C++ code leaves `Buffer::filled`,
`Buffer::extracted`, `Entry::totalSize` and `Entry::remainingSize`
uninitialized (they are absent from the constructors' initializer
lists), so their indeterminate initial values are passed in as the
parameters `ud`, `uf`, `ue`, `ut`, `ur`. -/
def mkWriter (bufferSize : Nat) (ud : List Nat) (uf ue ut ur : Nat) : WriterState :=
  { entry := { headerLive := false, totalSize := ut, remainingSize := ur }
    archiveLive := true
    files := []
    input := { isOpen := false, content := [], pos := 0, eofFlag := false }
    buffer := { data := ud, size := bufferSize, filled := uf, extracted := ue }
    encLog := []
    dataCalls := 0 }

/-- The fresh writer in the benign case where the indeterminate members
happen to read as zero (what the code evidently relies on). -/
def initWriter (bufferSize : Nat) : WriterState :=
  mkWriter bufferSize [] 0 0 0 0

/-- `Writer::add_file` (compression.h lines 150-158): `lstat64` the path;
on success push it on the back of the queue and return `true`, otherwise
return `false` leaving the writer untouched.  The file is not opened or
read. -/
def add_file (env : Env) (s : WriterState) (filename : String) : WriterState × Bool :=
  if (env.fs filename).lstatResult.isSome then
    ({ s with files := s.files ++ [filename] }, true)
  else
    (s, false)

/-- Sequencing of the phases of the loop body of `Writer::write`: the
C++ `return std::unexpected(err)` statements abort the call but leave the
already-performed mutations in place, so an error carries the state. -/
def seqE (p : WriterState × Option Error) (f : WriterState → WriterState × Option Error) :
    WriterState × Option Error :=
  match p with
  | (s, some e) => (s, some e)
  | (s, none) => f s

/-- The "open file if not already opened" block of `Writer::write`
(compression.h lines 181-217): pop the head of the queue, open it
(`OpenFailed` on failure — note the pop happens regardless), `lstat64` it
(`StatFailed` on failure), create the entry header with
`remainingSize = totalSize = st_size`, and emit the header to the encoder
(`WriteFailed` if rejected).  The `[]` case is unreachable: the block
only runs when the queue is non-empty or a file is open (C++
`files.front()` on an empty queue would be undefined). -/
def acquire (env : Env) (s : WriterState) : WriterState × Option Error :=
  match s.files with
  | [] => (s, none)
  | file :: rest =>
    let f := env.fs file
    let ins : InputStream :=
      if f.openOk then
        { isOpen := true, content := f.content, pos := 0, eofFlag := false }
      else s.input
    let s1 := { s with input := ins, files := rest }
    if !ins.isOpen then
      (s1, some Error.OpenFailed)
    else
      match f.lstatResult with
      | none => (s1, some Error.StatFailed)
      | some sz =>
        let s2 := { s1 with entry := { headerLive := true, totalSize := sz, remainingSize := sz } }
        if env.enc.headerOk then
          ({ s2 with encLog := s2.encLog ++ [ArchiveEvent.header file sz] }, none)
        else
          (s2, some Error.WriteFailed)

/-- The fill of the read buffer (compression.h lines 222-224): if the
buffer is not full and `eofbit` is unset, `readsome` up to the remaining
capacity and advance `filled`. -/
def doFill (s : WriterState) : WriterState :=
  if s.buffer.filled < s.buffer.size && !s.input.eofFlag then
    let r := s.input.readsome (s.buffer.size - s.buffer.filled)
    { s with
        input := r.2
        buffer := { s.buffer with
                      data := s.buffer.data ++ r.1
                      filled := s.buffer.filled + r.1.length } }
  else s

/-- The flush of the buffer into the archive (compression.h lines
227-236): if unextracted bytes exist, offer the slice
`[extracted, filled)` to `archive_write_data`; a negative return is
`WriteFailed`, otherwise advance `extracted` by the count written and
decrease `remainingSize` by the same count (`size_t` arithmetic,
`sub64`).  `filled - extracted` is Nat subtraction here; the `size_t`
original could wrap only if `extracted > filled`, which cannot occur
while the encoder honours its contract (see `EncSpec.WF`,
`stepBody_bufferInv`). -/
def doFlush (env : Env) (s : WriterState) : WriterState × Option Error :=
  if 0 < s.buffer.filled - s.buffer.extracted then
    let offered := s.buffer.filled - s.buffer.extracted
    let w := env.enc.accept s.dataCalls offered
    if w < 0 then
      ({ s with dataCalls := s.dataCalls + 1 }, some Error.WriteFailed)
    else
      let written := w.toNat
      ({ s with
          dataCalls := s.dataCalls + 1
          encLog := s.encLog ++ [ArchiveEvent.data ((s.buffer.data.drop s.buffer.extracted).take written)]
          entry := { s.entry with remainingSize := sub64 s.entry.remainingSize written }
          buffer := { s.buffer with extracted := s.buffer.extracted + written } }, none)
  else (s, none)

/-- The buffer reset (compression.h lines 239-242): once everything
filled has been extracted, both offsets return to 0. -/
def doReset (s : WriterState) : WriterState :=
  if s.buffer.filled ≤ s.buffer.extracted then
    { s with buffer := { s.buffer with data := [], filled := 0, extracted := 0 } }
  else s

/-- The `if (entry.remainingSize > 0) { fill; flush; reset; }` block of
`Writer::write` (compression.h lines 220-243). -/
def fillFlush (env : Env) (s : WriterState) : WriterState × Option Error :=
  if 0 < s.entry.remainingSize then
    seqE (doFlush env (doFill s)) (fun t => (doReset t, none))
  else (s, none)

/-- The consistency check and entry completion of `Writer::write`
(compression.h lines 246-257): end of data with bytes still owed is
`FileChanged`; once `remainingSize` is 0 (or eof), finish the entry,
release the header, zero the sizes and close the source. -/
def checkComplete (s : WriterState) : WriterState × Option Error :=
  if s.input.eofFlag && decide (0 < s.entry.remainingSize) then
    (s, some Error.FileChanged)
  else if s.entry.remainingSize = 0 || s.input.eofFlag then
    ({ s with
        encLog := s.encLog ++ [ArchiveEvent.finishEntry]
        entry := { headerLive := false, totalSize := 0, remainingSize := 0 }
        input := s.input.close }, none)
  else (s, none)

/-- One iteration of the do/while loop of `Writer::write` (compression.h
lines 179-258): acquire the next file if none is open, then fill / flush
/ reset, then the consistency check and entry completion.  This is the
single "step" a non-blocking call performs. -/
def stepBody (env : Env) (s : WriterState) : WriterState × Option Error :=
  seqE (if !s.input.isOpen then acquire env s else (s, none)) (fun s1 =>
    seqE (fillFlush env s1) (fun s2 => checkComplete s2))

/-- The loop/return condition of `Writer::write` (compression.h lines
258-259 and 261-263): `(input.is_open() && (!input.eof() ||
buffer.extracted >= buffer.filled)) || !files.empty()`. -/
def writeCond (s : WriterState) : Bool :=
  (s.input.isOpen && (!s.input.eofFlag || decide (s.buffer.filled ≤ s.buffer.extracted)))
    || !s.files.isEmpty

/-- The blocking loop of `Writer::write`: repeat `stepBody` while
`writeCond` holds, returning the final state and `Finished`, or the
erroring state and its error.  `fuel` bounds the number of further
iterations; `none` means the bound was hit with the loop still running
(the C++ loop would simply continue). -/
def writeBlockAux (env : Env) : Nat → WriterState → Option (WriterState × Except Error State)
  | 0, s =>
    match stepBody env s with
    | (s', some e) => some (s', Except.error e)
    | (s', none) =>
      if writeCond s' then none else some (s', Except.ok State.Finished)
  | fuel + 1, s =>
    match stepBody env s with
    | (s', some e) => some (s', Except.error e)
    | (s', none) =>
      if writeCond s' then writeBlockAux env fuel s'
      else some (s', Except.ok State.Finished)

/-- `Writer::write(mode)` (compression.h lines 172-264): if no file is
open and the queue is empty, return `Finished` at once; otherwise in
non-blocking mode perform exactly one step and report
`InProgress`/`Finished` from the condition, and in blocking mode loop
until the condition fails.  `fuel` is ignored in non-blocking mode. -/
def write (env : Env) (mode : Mode) (fuel : Nat) (s : WriterState) :
    Option (WriterState × Except Error State) :=
  if !s.input.isOpen && s.files.isEmpty then
    some (s, Except.ok State.Finished)
  else
    match mode with
    | Mode.NonBlock =>
      match stepBody env s with
      | (s', some e) => some (s', Except.error e)
      | (s', none) =>
        some (s', Except.ok (if writeCond s' then State.InProgress else State.Finished))
    | Mode.Block => writeBlockAux env fuel s

/-- `Writer::close` (compression.h lines 272-279): release the archive
handle, discard the whole queue (swap with an empty one), and close the
input stream if it is open.  The buffer, entry and produced archive are
untouched. -/
def close (s : WriterState) : WriterState :=
  { s with
      archiveLive := false
      files := []
      input := if s.input.isOpen then s.input.close else s.input }

/-- The caller's non-blocking driver loop (main.cpp lines 77-83): call
`write(NonBlock)` repeatedly while it reports `InProgress`.  `fuel`
bounds the number of additional calls after the first. -/
def driveNonBlock (env : Env) : Nat → WriterState → Option (WriterState × Except Error State)
  | 0, s =>
    match write env Mode.NonBlock 0 s with
    | some (_, Except.ok State.InProgress) => none
    | r => r
  | fuel + 1, s =>
    match write env Mode.NonBlock 0 s with
    | some (s', Except.ok State.InProgress) => driveNonBlock env fuel s'
    | r => r

/-- The pathnames of the headers in an encoder log, in emission order:
the sequence of entries of the archive. -/
def headerPaths : List ArchiveEvent → List String
  | [] => []
  | ArchiveEvent.header p _ :: rest => p :: headerPaths rest
  | ArchiveEvent.data _ :: rest => headerPaths rest
  | ArchiveEvent.finishEntry :: rest => headerPaths rest

/-- The total count of bytes accepted by the encoder in a log. -/
def dataLen : List ArchiveEvent → Nat
  | [] => 0
  | ArchiveEvent.data bs :: rest => bs.length + dataLen rest
  | ArchiveEvent.header _ _ :: rest => dataLen rest
  | ArchiveEvent.finishEntry :: rest => dataLen rest

/-- The state predicate of spec section 4.3: queue non-empty, or a file
open with the source not at end-of-data or the buffer not fully
extracted. -/
def specProgress (s : WriterState) : Bool :=
  !s.files.isEmpty
    || (s.input.isOpen && (!s.input.eofFlag || decide (s.buffer.extracted < s.buffer.filled)))

/-- The read-buffer invariant of the spec's data model:
`extracted ≤ filled ≤ size`, and a fully-extracted buffer has been reset
(both offsets zero). -/
def bufferInv (b : Buffer) : Prop :=
  b.extracted ≤ b.filled ∧ b.filled ≤ b.size ∧ (b.extracted = b.filled → b.filled = 0)

/-- A small concrete filesystem used to exercise the model: two ordinary
files `"a"` and `"b"`, a file `"shrunk"` whose stream yields fewer bytes
than `lstat64` reported, a file `"grown"` yielding more, and an empty
file; every other path is absent. -/
def fsA : String → FSFile := fun p =>
  if p = "a" then { lstatResult := some 2, openOk := true, content := [10, 11] }
  else if p = "b" then { lstatResult := some 1, openOk := true, content := [12] }
  else if p = "shrunk" then { lstatResult := some 5, openOk := true, content := [10, 11] }
  else if p = "grown" then { lstatResult := some 1, openOk := true, content := [7, 8, 9] }
  else if p = "empty" then { lstatResult := some 0, openOk := true, content := [] }
  else { lstatResult := none, openOk := false, content := [] }

/-- An encoder that accepts headers and every byte offered (libarchive's
ordinary behaviour). -/
def encAll : EncSpec :=
  { headerOk := true, accept := fun _ n => (n : Int) }

/-- The concrete test environment. -/
def envA : Env := { fs := fsA, enc := encAll }

/-- A fresh writer with `"a"` and `"b"` queued. -/
def wsQueueAB : WriterState := { initWriter 4 with files := ["a", "b"] }

/-- The state one non-blocking `write` step takes `wsQueueAB` to:
`"a"` fully archived, `"b"` still queued. -/
def wsAfterOneStep : WriterState :=
  { entry := { headerLive := false, totalSize := 0, remainingSize := 0 }
    archiveLive := true
    files := ["b"]
    input := { isOpen := false, content := [10, 11], pos := 2, eofFlag := false }
    buffer := { data := [], size := 4, filled := 0, extracted := 0 }
    encLog := [ArchiveEvent.header "a" 2, ArchiveEvent.data [10, 11], ArchiveEvent.finishEntry]
    dataCalls := 1 }

/-- The state a blocking `write` takes `wsQueueAB` to: both files
archived in enqueue order. -/
def wsFinished : WriterState :=
  { entry := { headerLive := false, totalSize := 0, remainingSize := 0 }
    archiveLive := true
    files := []
    input := { isOpen := false, content := [12], pos := 1, eofFlag := false }
    buffer := { data := [], size := 4, filled := 0, extracted := 0 }
    encLog := [ArchiveEvent.header "a" 2, ArchiveEvent.data [10, 11], ArchiveEvent.finishEntry,
               ArchiveEvent.header "b" 1, ArchiveEvent.data [12], ArchiveEvent.finishEntry]
    dataCalls := 2 }

/-- A writer mid-stream on the file `"shrunk"`: the header promised 5
bytes, 2 were streamed and flushed, the source is exhausted
(`pos = content.length`), the buffer is drained. -/
def wsShrunkMid : WriterState :=
  { entry := { headerLive := true, totalSize := 5, remainingSize := 3 }
    archiveLive := true
    files := []
    input := { isOpen := true, content := [10, 11], pos := 2, eofFlag := false }
    buffer := { data := [], size := 4, filled := 0, extracted := 0 }
    encLog := [ArchiveEvent.header "shrunk" 5, ArchiveEvent.data [10, 11]]
    dataCalls := 1 }

/-- A fresh writer with `"a"` queued. -/
def wsQueueA : WriterState := { initWriter 4 with files := ["a"] }

/-- The state `acquire` takes `wsQueueA` to: entry for `"a"` opened,
header emitted, nothing streamed yet. -/
def wsEntryOpenA : WriterState :=
  { entry := { headerLive := true, totalSize := 2, remainingSize := 2 }
    archiveLive := true
    files := []
    input := { isOpen := true, content := [10, 11], pos := 0, eofFlag := false }
    buffer := { data := [], size := 4, filled := 0, extracted := 0 }
    encLog := [ArchiveEvent.header "a" 2]
    dataCalls := 0 }

/-- The state one loop step takes `wsEntryOpenA` to: both bytes
flushed, entry finished. -/
def wsEntryDoneA : WriterState :=
  { entry := { headerLive := false, totalSize := 0, remainingSize := 0 }
    archiveLive := true
    files := []
    input := { isOpen := false, content := [10, 11], pos := 2, eofFlag := false }
    buffer := { data := [], size := 4, filled := 0, extracted := 0 }
    encLog := [ArchiveEvent.header "a" 2, ArchiveEvent.data [10, 11], ArchiveEvent.finishEntry]
    dataCalls := 1 }

/-! ## Basic lemmas about the log projections and `size_t` subtraction -/

theorem headerPaths_append (l1 l2 : List ArchiveEvent) :
    headerPaths (l1 ++ l2) = headerPaths l1 ++ headerPaths l2 := by
  induction l1 with
  | nil => rfl
  | cons e rest ih => cases e <;> simp [headerPaths, ih]

theorem dataLen_append (l1 l2 : List ArchiveEvent) :
    dataLen (l1 ++ l2) = dataLen l1 + dataLen l2 := by
  induction l1 with
  | nil => simp [dataLen]
  | cons e rest ih => cases e <;> (simp [dataLen, ih]; try omega)

theorem sub64_of_le {a b : Nat} (hba : b ≤ a) (ha : a < two64) : sub64 a b = a - b := by
  have hb : b % two64 = b := Nat.mod_eq_of_lt (lt_of_le_of_lt hba ha)
  have h1 : a + (two64 - b % two64) = two64 + (a - b) := by
    rw [hb]; omega
  rw [sub64, h1, Nat.add_mod_left]
  exact Nat.mod_eq_of_lt (lt_of_le_of_lt (Nat.sub_le a b) ha)

/-! ## Shape lemmas for the phases of the write-loop body -/

theorem seqE_eq_none {p : WriterState × Option Error} {f : WriterState → WriterState × Option Error}
    {s' : WriterState} (h : seqE p f = (s', none)) :
    ∃ t, p = (t, none) ∧ f t = (s', none) := by
  rcases p with ⟨t, e⟩
  cases e with
  | none => exact ⟨t, rfl, h⟩
  | some err => simp [seqE] at h

theorem seqE_fst (p : WriterState × Option Error) (f : WriterState → WriterState × Option Error) :
    (seqE p f).1 = p.1 ∨ (seqE p f).1 = (f p.1).1 := by
  rcases p with ⟨t, e⟩
  cases e with
  | none => exact Or.inr rfl
  | some err => exact Or.inl rfl

theorem doFill_entry (s : WriterState) : (doFill s).entry = s.entry := by
  unfold doFill; split <;> rfl

theorem doFill_encLog (s : WriterState) : (doFill s).encLog = s.encLog := by
  unfold doFill; split <;> rfl

theorem doFill_files (s : WriterState) : (doFill s).files = s.files := by
  unfold doFill; split <;> rfl

theorem doFill_isOpen (s : WriterState) : (doFill s).input.isOpen = s.input.isOpen := by
  unfold doFill InputStream.readsome
  split
  · split <;> rfl
  · rfl

theorem doFlush_files (env : Env) (s : WriterState) : (doFlush env s).1.files = s.files := by
  unfold doFlush; dsimp only; split
  · split <;> rfl
  · rfl

theorem doFlush_input (env : Env) (s : WriterState) : (doFlush env s).1.input = s.input := by
  unfold doFlush; dsimp only; split
  · split <;> rfl
  · rfl

theorem doFlush_headerPaths (env : Env) (s : WriterState) :
    headerPaths (doFlush env s).1.encLog = headerPaths s.encLog := by
  unfold doFlush; dsimp only; split
  · split
    · rfl
    · simp [headerPaths_append, headerPaths]
  · rfl

theorem doReset_entry (s : WriterState) : (doReset s).entry = s.entry := by
  unfold doReset; split <;> rfl

theorem doReset_encLog (s : WriterState) : (doReset s).encLog = s.encLog := by
  unfold doReset; split <;> rfl

theorem doReset_files (s : WriterState) : (doReset s).files = s.files := by
  unfold doReset; split <;> rfl

theorem doReset_input (s : WriterState) : (doReset s).input = s.input := by
  unfold doReset; split <;> rfl

theorem fillFlush_files (env : Env) (s : WriterState) : (fillFlush env s).1.files = s.files := by
  unfold fillFlush
  split
  · rcases seqE_fst (doFlush env (doFill s)) (fun t => (doReset t, none)) with h | h <;>
      rw [h] <;> simp [doFlush_files, doFill_files, doReset_files]
  · rfl

theorem fillFlush_headerPaths (env : Env) (s : WriterState) :
    headerPaths (fillFlush env s).1.encLog = headerPaths s.encLog := by
  unfold fillFlush
  split
  · rcases seqE_fst (doFlush env (doFill s)) (fun t => (doReset t, none)) with h | h <;>
      rw [h] <;> simp [doFlush_headerPaths, doFill_encLog, doReset_encLog]
  · rfl

theorem checkComplete_files (s : WriterState) : (checkComplete s).1.files = s.files := by
  unfold checkComplete
  split
  · rfl
  · split <;> rfl

theorem checkComplete_headerPaths (s : WriterState) :
    headerPaths (checkComplete s).1.encLog = headerPaths s.encLog := by
  unfold checkComplete
  split
  · rfl
  · split
    · simp [headerPaths_append, headerPaths]
    · rfl

theorem checkComplete_none_open_eof {s s' : WriterState} (h : checkComplete s = (s', none))
    (ho : s'.input.isOpen = true) : s'.input.eofFlag = false := by
  unfold checkComplete at h
  split at h
  · simp at h
  · split at h
    · injection h with h1 h2
      subst h1
      simp [InputStream.close] at ho
    · injection h with h1 h2
      subst h1
      rename_i hchanged hcond
      simp only [Bool.or_eq_true, decide_eq_true_eq, not_or, Bool.not_eq_true] at hcond
      exact hcond.2

theorem checkComplete_none_remaining {s s' : WriterState} (h : checkComplete s = (s', none)) :
    s'.entry.remainingSize = s.entry.remainingSize ∧ dataLen s'.encLog = dataLen s.encLog := by
  unfold checkComplete at h
  split at h
  · simp at h
  · split at h
    · injection h with h1 h2
      subst h1
      rename_i hchanged hcond
      simp only [Bool.and_eq_true, decide_eq_true_eq, not_and] at hchanged
      simp only [Bool.or_eq_true, decide_eq_true_eq] at hcond
      have hzero : s.entry.remainingSize = 0 := by
        rcases hcond with h2 | h2
        · exact h2
        · have := hchanged h2
          omega
      simp [dataLen_append, dataLen, hzero]
    · injection h with h1 h2
      subst h1
      exact ⟨rfl, rfl⟩

theorem acquire_files (env : Env) (s : WriterState) :
    (acquire env s).1.files = s.files ∨ (acquire env s).1.files = s.files.tail := by
  rcases hq : s.files with _ | ⟨f, rest⟩
  · left
    simp [acquire, hq]
  · right
    cases hopen : (env.fs f).openOk <;>
      cases hio : s.input.isOpen <;>
      rcases hls : (env.fs f).lstatResult with _ | sz <;>
      cases hhd : env.enc.headerOk <;>
      simp [acquire, hq, hopen, hio, hls, hhd]

theorem acquire_none_conserv (env : Env) (s s1 : WriterState) (h : acquire env s = (s1, none)) :
    headerPaths s1.encLog ++ s1.files = headerPaths s.encLog ++ s.files := by
  rcases hq : s.files with _ | ⟨f, rest⟩
  · unfold acquire at h
    rw [hq] at h
    injection h with h1 h2
    subst h1
    rw [hq]
  · cases hopen : (env.fs f).openOk <;>
      cases hio : s.input.isOpen <;>
      rcases hls : (env.fs f).lstatResult with _ | sz <;>
      cases hhd : env.enc.headerOk <;>
      simp [acquire, hq, hopen, hio, hls, hhd] at h <;>
      (subst h; simp [hq, headerPaths_append, headerPaths])

theorem acquire_start (env : Env) (s s1 : WriterState) (f : String) (rest : List String)
    (sz : Nat) (hq : s.files = f :: rest) (hsz : (env.fs f).lstatResult = some sz)
    (h : acquire env s = (s1, none)) :
    s1.entry.remainingSize = sz ∧ s1.entry.totalSize = sz := by
  cases hopen : (env.fs f).openOk <;>
    cases hio : s.input.isOpen <;>
    cases hhd : env.enc.headerOk <;>
    simp [acquire, hq, hsz, hopen, hio, hhd] at h <;>
    (subst h; exact ⟨rfl, rfl⟩)

theorem stepTail_files (env : Env) (s1 : WriterState) :
    (seqE (fillFlush env s1) (fun s2 => checkComplete s2)).1.files = s1.files := by
  rcases seqE_fst (fillFlush env s1) (fun s2 => checkComplete s2) with h | h <;> rw [h]
  · exact fillFlush_files env s1
  · rw [checkComplete_files, fillFlush_files]

theorem stepBody_files (env : Env) (s : WriterState) :
    (stepBody env s).1.files = s.files ∨ (stepBody env s).1.files = s.files.tail := by
  unfold stepBody
  rcases seqE_fst (if !s.input.isOpen then acquire env s else (s, none))
      (fun s1 => seqE (fillFlush env s1) (fun s2 => checkComplete s2)) with h | h <;> rw [h]
  · split
    · exact acquire_files env s
    · exact Or.inl rfl
  · rw [stepTail_files]
    split
    · exact acquire_files env s
    · exact Or.inl rfl

theorem step_conserv (env : Env) (s s' : WriterState) (h : stepBody env s = (s', none)) :
    headerPaths s'.encLog ++ s'.files = headerPaths s.encLog ++ s.files := by
  unfold stepBody at h
  obtain ⟨s1, hp1, h2⟩ := seqE_eq_none h
  obtain ⟨s2, hp2, h3⟩ := seqE_eq_none h2
  have e2 : s2 = (fillFlush env s1).1 := by rw [hp2]
  have e3 : s' = (checkComplete s2).1 := by rw [h3]
  have hf1 : headerPaths s1.encLog ++ s1.files = headerPaths s.encLog ++ s.files := by
    split at hp1
    · exact acquire_none_conserv env s s1 hp1
    · injection hp1 with h1 _
      subst h1
      rfl
  calc headerPaths s'.encLog ++ s'.files
      = headerPaths s2.encLog ++ s2.files := by
        rw [e3, checkComplete_headerPaths, checkComplete_files]
    _ = headerPaths s1.encLog ++ s1.files := by
        rw [e2, fillFlush_headerPaths, fillFlush_files]
    _ = _ := hf1

theorem step_open_eof (env : Env) (s s' : WriterState) (h : stepBody env s = (s', none))
    (ho : s'.input.isOpen = true) : s'.input.eofFlag = false := by
  unfold stepBody at h
  obtain ⟨s1, hp1, h2⟩ := seqE_eq_none h
  obtain ⟨s2, hp2, h3⟩ := seqE_eq_none h2
  exact checkComplete_none_open_eof h3 ho

/-! ## Lemmas about the blocking loop and `write` -/

theorem writeCond_false_elim {s : WriterState} (h : writeCond s = false) :
    s.files = [] ∧ (s.input.isOpen = true → s.input.eofFlag = true ∧ s.buffer.extracted < s.buffer.filled) := by
  unfold writeCond at h
  simp only [Bool.or_eq_false_iff, Bool.and_eq_false_iff, Bool.not_eq_false,
    Bool.not_eq_false', Bool.or_eq_false_iff, decide_eq_false_iff_not] at h
  rcases h with ⟨h1, h2⟩
  refine ⟨List.isEmpty_iff.mp h2, ?_⟩
  intro ho
  rcases h1 with h1 | h1
  · exact absurd ho (by simp [h1])
  · rcases h1 with ⟨he, hl⟩
    exact ⟨he, by omega⟩

theorem blockAux_ok (env : Env) (fuel : Nat) (s s' : WriterState) (st : State)
    (h : writeBlockAux env fuel s = some (s', Except.ok st)) :
    st = State.Finished ∧ writeCond s' = false ∧
      (s'.input.isOpen = true → s'.input.eofFlag = false) := by
  induction fuel generalizing s with
  | zero =>
    unfold writeBlockAux at h
    cases hs : stepBody env s with
    | mk t e =>
      rw [hs] at h
      cases e with
      | some err => simp at h
      | none =>
        dsimp only at h
        split at h
        · simp at h
        · rename_i hcond
          injection h with h1
          injection h1 with h1 h2
          subst h1
          injection h2 with h2
          exact ⟨h2.symm, by simpa using hcond, step_open_eof env s _ hs⟩
  | succ fuel ih =>
    unfold writeBlockAux at h
    cases hs : stepBody env s with
    | mk t e =>
      rw [hs] at h
      cases e with
      | some err => simp at h
      | none =>
        dsimp only at h
        split at h
        · exact ih t h
        · rename_i hcond
          injection h with h1
          injection h1 with h1 h2
          subst h1
          injection h2 with h2
          exact ⟨h2.symm, by simpa using hcond, step_open_eof env s _ hs⟩

theorem blockAux_conserv (env : Env) (fuel : Nat) (s s' : WriterState) (st : State)
    (h : writeBlockAux env fuel s = some (s', Except.ok st)) :
    headerPaths s'.encLog ++ s'.files = headerPaths s.encLog ++ s.files := by
  induction fuel generalizing s with
  | zero =>
    unfold writeBlockAux at h
    cases hs : stepBody env s with
    | mk t e =>
      rw [hs] at h
      cases e with
      | some err => simp at h
      | none =>
        dsimp only at h
        split at h
        · simp at h
        · injection h with h1
          injection h1 with h1 h2
          subst h1
          exact step_conserv env s _ hs
  | succ fuel ih =>
    unfold writeBlockAux at h
    cases hs : stepBody env s with
    | mk t e =>
      rw [hs] at h
      cases e with
      | some err => simp at h
      | none =>
        dsimp only at h
        split at h
        · calc headerPaths s'.encLog ++ s'.files
              = headerPaths t.encLog ++ t.files := ih t h
          _ = headerPaths s.encLog ++ s.files := step_conserv env s t hs
        · injection h with h1
          injection h1 with h1 h2
          subst h1
          exact step_conserv env s _ hs

theorem write_early {s : WriterState} (h1 : s.input.isOpen = false) (h2 : s.files = []) :
    ∀ env mode fuel, write env mode fuel s = some (s, Except.ok State.Finished) := by
  intro env mode fuel
  unfold write
  rw [if_pos (by simp [h1, h2])]

theorem write_ok (env : Env) (mode : Mode) (fuel : Nat) (s s' : WriterState) (st : State)
    (h : write env mode fuel s = some (s', Except.ok st)) :
    (st = State.InProgress ↔ writeCond s' = true) ∧
      (s'.input.isOpen = true → s'.input.eofFlag = false) := by
  unfold write at h
  split at h
  · rename_i hearly
    injection h with h1
    injection h1 with h1 h2
    subst h1
    injection h2 with h2
    simp only [Bool.and_eq_true, Bool.not_eq_true', List.isEmpty_eq_true] at hearly
    constructor
    · rw [← h2]
      unfold writeCond
      simp [hearly.1, hearly.2]
    · intro ho
      exact absurd ho (by simp [hearly.1])
  · cases mode with
    | NonBlock =>
      cases hs : stepBody env s with
      | mk t e =>
        rw [hs] at h
        cases e with
        | some err => simp at h
        | none =>
          dsimp only at h
          injection h with h1
          injection h1 with h1 h2
          subst h1
          injection h2 with h2
          constructor
          · rw [← h2]
            split
            · rename_i hc
              simp [hc]
            · rename_i hc
              simp only [Bool.not_eq_true] at hc
              simp [hc]
          · exact step_open_eof env s _ hs
    | Block =>
      obtain ⟨hfin, hcond, heof⟩ := blockAux_ok env fuel s s' st h
      subst hfin
      exact ⟨by simp [hcond], heof⟩

theorem write_nb_eq (env : Env) (s : WriterState) :
    write env Mode.NonBlock 0 s =
      if (!s.input.isOpen && s.files.isEmpty) = true then some (s, Except.ok State.Finished)
      else
        match stepBody env s with
        | (s', some e) => some (s', Except.error e)
        | (s', none) =>
          some (s', Except.ok (if writeCond s' then State.InProgress else State.Finished)) := by
  unfold write
  split <;> rfl

theorem write_block_eq (env : Env) (fuel : Nat) (s : WriterState) :
    write env Mode.Block fuel s =
      if (!s.input.isOpen && s.files.isEmpty) = true then some (s, Except.ok State.Finished)
      else writeBlockAux env fuel s := by
  unfold write
  split <;> rfl

theorem early_false_of_writeCond {s : WriterState} (h : writeCond s = true) :
    (!s.input.isOpen && s.files.isEmpty) = false := by
  unfold writeCond at h
  cases ho : s.input.isOpen <;> cases hq : s.files.isEmpty <;> simp_all

/-! ## Preservation of the spec's buffer invariant

The invariant `extracted ≤ filled ≤ size` (with full extraction implying
reset) is maintained by every operation once it holds — only the missing
initialization of `Buffer::filled`/`Buffer::extracted` in the C++
constructor can break it (see `buffer_offsets_uninitialized`). -/

theorem readsome_length_le (st : InputStream) (n : Nat) : (st.readsome n).1.length ≤ n := by
  unfold InputStream.readsome
  split
  · simp
  · dsimp only
    rw [List.length_take, List.length_drop]
    omega

theorem acquire_buffer (env : Env) (s : WriterState) : (acquire env s).1.buffer = s.buffer := by
  rcases hq : s.files with _ | ⟨f, rest⟩
  · simp [acquire, hq]
  · cases hopen : (env.fs f).openOk <;>
      cases hio : s.input.isOpen <;>
      rcases hls : (env.fs f).lstatResult with _ | sz <;>
      cases hhd : env.enc.headerOk <;>
      simp [acquire, hq, hopen, hio, hls, hhd]

theorem checkComplete_buffer (s : WriterState) : (checkComplete s).1.buffer = s.buffer := by
  unfold checkComplete
  split
  · rfl
  · split <;> rfl

theorem doFill_bufferInv (s : WriterState) (h : bufferInv s.buffer) :
    bufferInv (doFill s).buffer := by
  unfold doFill
  split
  · rename_i hg
    simp only [Bool.and_eq_true, decide_eq_true_eq] at hg
    have hlen := readsome_length_le s.input (s.buffer.size - s.buffer.filled)
    obtain ⟨h1, h2, h3⟩ := h
    unfold bufferInv
    dsimp only
    refine ⟨by omega, by omega, ?_⟩
    intro he
    have he2 : s.buffer.extracted = s.buffer.filled := by omega
    have := h3 he2
    omega
  · exact h

theorem doFlush_some_buffer (env : Env) (s t : WriterState) (e : Error)
    (h : doFlush env s = (t, some e)) : t.buffer = s.buffer := by
  unfold doFlush at h
  split at h
  · dsimp only at h
    split at h
    · injection h with h1 h2
      subst h1
      rfl
    · simp at h
  · simp at h

theorem doFlush_weak (env : Env) (s : WriterState) (henc : EncSpec.WF env.enc)
    (h1 : s.buffer.extracted ≤ s.buffer.filled) (h2 : s.buffer.filled ≤ s.buffer.size) :
    (doFlush env s).1.buffer.extracted ≤ (doFlush env s).1.buffer.filled ∧
    (doFlush env s).1.buffer.filled ≤ (doFlush env s).1.buffer.size := by
  unfold doFlush
  split
  · dsimp only
    split
    · exact ⟨h1, h2⟩
    · dsimp only
      have := Int.toNat_le.mpr (henc s.dataCalls (s.buffer.filled - s.buffer.extracted))
      exact ⟨by omega, h2⟩
  · exact ⟨h1, h2⟩

theorem doReset_bufferInv (s : WriterState)
    (h1 : s.buffer.extracted ≤ s.buffer.filled) (h2 : s.buffer.filled ≤ s.buffer.size) :
    bufferInv (doReset s).buffer := by
  unfold doReset
  split
  · exact ⟨le_refl 0, Nat.zero_le _, fun _ => rfl⟩
  · rename_i hn
    exact ⟨h1, h2, fun he => by omega⟩

theorem fillFlush_bufferInv (env : Env) (s : WriterState) (henc : EncSpec.WF env.enc)
    (h : bufferInv s.buffer) : bufferInv (fillFlush env s).1.buffer := by
  unfold fillFlush
  split
  · have hfillinv := doFill_bufferInv s h
    have hweak := doFlush_weak env (doFill s) henc hfillinv.1 hfillinv.2.1
    rcases hres : doFlush env (doFill s) with ⟨t, e⟩
    rw [hres] at hweak
    dsimp only at hweak
    cases e with
    | none =>
      simp only [seqE]
      exact doReset_bufferInv t hweak.1 hweak.2
    | some err =>
      simp only [seqE]
      rw [doFlush_some_buffer env (doFill s) t err hres]
      exact hfillinv
  · exact h

theorem stepBody_bufferInv (env : Env) (s : WriterState) (henc : EncSpec.WF env.enc)
    (h : bufferInv s.buffer) : bufferInv (stepBody env s).1.buffer := by
  unfold stepBody
  have hph1 : bufferInv ((if !s.input.isOpen then acquire env s else (s, none)).1).buffer := by
    split
    · rw [acquire_buffer]
      exact h
    · exact h
  rcases hp : (if !s.input.isOpen then acquire env s else (s, none)) with ⟨s1, e1⟩
  rw [hp] at hph1
  dsimp only at hph1
  cases e1 with
  | some err =>
    simp only [seqE]
    exact hph1
  | none =>
    simp only [seqE]
    have hff := fillFlush_bufferInv env s1 henc hph1
    rcases hf : fillFlush env s1 with ⟨s2, e2⟩
    rw [hf] at hff
    dsimp only at hff
    cases e2 with
    | some err =>
      simp only [seqE]
      exact hff
    | none =>
      simp only [seqE]
      rw [checkComplete_buffer]
      exact hff

theorem blockAux_bufferInv (env : Env) (fuel : Nat) (s s' : WriterState)
    (r : Except Error State) (henc : EncSpec.WF env.enc) (h : bufferInv s.buffer)
    (hw : writeBlockAux env fuel s = some (s', r)) : bufferInv s'.buffer := by
  induction fuel generalizing s with
  | zero =>
    unfold writeBlockAux at hw
    cases hs : stepBody env s with
    | mk t e =>
      have hstep := stepBody_bufferInv env s henc h
      rw [hs] at hw hstep
      cases e with
      | some err =>
        dsimp only at hw
        injection hw with h1
        injection h1 with h1 h2
        subst h1
        exact hstep
      | none =>
        dsimp only at hw
        split at hw
        · simp at hw
        · injection hw with h1
          injection h1 with h1 h2
          subst h1
          exact hstep
  | succ fuel ih =>
    unfold writeBlockAux at hw
    cases hs : stepBody env s with
    | mk t e =>
      have hstep := stepBody_bufferInv env s henc h
      rw [hs] at hw hstep
      cases e with
      | some err =>
        dsimp only at hw
        injection hw with h1
        injection h1 with h1 h2
        subst h1
        exact hstep
      | none =>
        dsimp only at hw
        split at hw
        · exact ih t hstep hw
        · injection hw with h1
          injection h1 with h1 h2
          subst h1
          exact hstep

theorem write_bufferInv (env : Env) (mode : Mode) (fuel : Nat) (s s' : WriterState)
    (r : Except Error State) (henc : EncSpec.WF env.enc) (h : bufferInv s.buffer)
    (hw : write env mode fuel s = some (s', r)) : bufferInv s'.buffer := by
  unfold write at hw
  split at hw
  · injection hw with h1
    injection h1 with h1 h2
    subst h1
    exact h
  · cases mode with
    | NonBlock =>
      cases hs : stepBody env s with
      | mk t e =>
        have hstep := stepBody_bufferInv env s henc h
        rw [hs] at hw hstep
        cases e with
        | some err =>
          dsimp only at hw
          injection hw with h1
          injection h1 with h1 h2
          subst h1
          exact hstep
        | none =>
          dsimp only at hw
          injection hw with h1
          injection h1 with h1 h2
          subst h1
          exact hstep
    | Block => exact blockAux_bufferInv env fuel s s' r henc h hw

theorem add_file_bufferInv (env : Env) (s : WriterState) (f : String)
    (h : bufferInv s.buffer) : bufferInv (add_file env s f).1.buffer := by
  unfold add_file
  split
  · exact h
  · exact h

theorem close_bufferInv (s : WriterState) (h : bufferInv s.buffer) :
    bufferInv (close s).buffer := h

theorem initWriter_bufferInv (n : Nat) : bufferInv (initWriter n).buffer :=
  ⟨le_refl 0, Nat.zero_le n, fun _ => rfl⟩

/-! ## Accounting lemmas for `remainingSize` -/

theorem doFill_spec (s : WriterState) (hdata : s.buffer.data.length = s.buffer.filled) :
    (doFill s).entry = s.entry ∧
    (doFill s).encLog = s.encLog ∧
    (doFill s).buffer.data.length = (doFill s).buffer.filled ∧
    ((doFill s).buffer.filled - (doFill s).buffer.extracted)
        + ((doFill s).input.content.length - (doFill s).input.pos)
      ≤ (s.buffer.filled - s.buffer.extracted) + (s.input.content.length - s.input.pos) := by
  unfold doFill
  split
  · unfold InputStream.readsome
    dsimp only
    split
    · rename_i hav
      refine ⟨rfl, rfl, by simp [hdata], ?_⟩
      simp
    · rename_i hav
      have hmle : min (s.buffer.size - s.buffer.filled) (s.input.content.length - s.input.pos)
          ≤ s.input.content.length - s.input.pos := Nat.min_le_right _ _
      have hlen : ((s.input.content.drop s.input.pos).take
          (min (s.buffer.size - s.buffer.filled) (s.input.content.length - s.input.pos))).length
          = min (s.buffer.size - s.buffer.filled) (s.input.content.length - s.input.pos) := by
        rw [List.length_take, List.length_drop]
        omega
      refine ⟨rfl, rfl, ?_, ?_⟩
      · dsimp only
        rw [List.length_append, hlen, hdata]
      · dsimp only
        rw [hlen]
        omega
  · exact ⟨rfl, rfl, hdata, le_refl _⟩

theorem doFlush_none (env : Env) (s t : WriterState) (henc : env.enc.WF)
    (hdata : s.buffer.data.length = s.buffer.filled)
    (hlt : s.entry.remainingSize < two64)
    (hbound : s.buffer.filled - s.buffer.extracted ≤ s.entry.remainingSize)
    (h : doFlush env s = (t, none)) :
    t.entry.remainingSize + dataLen t.encLog = s.entry.remainingSize + dataLen s.encLog ∧
    t.entry.remainingSize ≤ s.entry.remainingSize := by
  unfold doFlush at h
  split at h
  · rename_i hoff
    dsimp only at h
    split at h
    · simp at h
    · rename_i hw
      injection h with h1 h2
      subst h1
      have haccle := henc s.dataCalls (s.buffer.filled - s.buffer.extracted)
      have hwle : (env.enc.accept s.dataCalls (s.buffer.filled - s.buffer.extracted)).toNat
          ≤ s.buffer.filled - s.buffer.extracted := Int.toNat_le.mpr haccle
      have hsub : sub64 s.entry.remainingSize
          (env.enc.accept s.dataCalls (s.buffer.filled - s.buffer.extracted)).toNat
          = s.entry.remainingSize
            - (env.enc.accept s.dataCalls (s.buffer.filled - s.buffer.extracted)).toNat :=
        sub64_of_le (le_trans hwle hbound) hlt
      have hslice : ((s.buffer.data.drop s.buffer.extracted).take
          (env.enc.accept s.dataCalls (s.buffer.filled - s.buffer.extracted)).toNat).length
          = (env.enc.accept s.dataCalls (s.buffer.filled - s.buffer.extracted)).toNat := by
        rw [List.length_take, List.length_drop, hdata]
        omega
      constructor
      · dsimp only
        rw [dataLen_append, hsub]
        simp only [dataLen, hslice]
        have := le_trans hwle hbound
        omega
      · dsimp only
        rw [hsub]
        exact Nat.sub_le _ _
  · injection h with h1 h2
    subst h1
    exact ⟨rfl, le_refl _⟩

theorem step_remaining (env : Env) (s s' : WriterState) (henc : env.enc.WF)
    (hopen : s.input.isOpen = true)
    (hlt : s.entry.remainingSize < two64)
    (hdata : s.buffer.data.length = s.buffer.filled)
    (hbound : (s.buffer.filled - s.buffer.extracted) + (s.input.content.length - s.input.pos)
        ≤ s.entry.remainingSize)
    (h : stepBody env s = (s', none)) :
    s'.entry.remainingSize + dataLen s'.encLog = s.entry.remainingSize + dataLen s.encLog ∧
    s'.entry.remainingSize ≤ s.entry.remainingSize := by
  unfold stepBody at h
  rw [if_neg (by simp [hopen])] at h
  simp only [seqE] at h
  obtain ⟨s2, hff, hcc⟩ := seqE_eq_none h
  obtain ⟨hrem2, hlen2⟩ := checkComplete_none_remaining hcc
  unfold fillFlush at hff
  split at hff
  · rename_i hpos
    obtain ⟨s3, hfl, hrs⟩ := seqE_eq_none hff
    injection hrs with hr1 hr2
    obtain ⟨hfe, hfl2, hfd, hfb⟩ := doFill_spec s hdata
    have hflush := doFlush_none env (doFill s) s3 henc hfd
      (by rw [hfe]; exact hlt)
      (by rw [hfe]; exact le_trans (le_trans (Nat.le_add_right _ _) hfb) hbound)
      hfl
    rw [hfe, hfl2] at hflush
    have hs2e : s2.entry = s3.entry := by rw [← hr1]; exact doReset_entry s3
    have hs2l : s2.encLog = s3.encLog := by rw [← hr1]; exact doReset_encLog s3
    rw [hrem2, hlen2, hs2e, hs2l]
    exact hflush
  · injection hff with h1 h2
    subst h1
    rw [hrem2, hlen2]
    exact ⟨rfl, le_refl _⟩

/-! ## Claim theorems -/

/-- C1: driving `write(Mode::NonBlock)` in a loop until it stops reporting
`InProgress` is observably identical to a single `write(Mode::Block)`
call: for every environment (queued files and filesystem state), every
starting writer state and every iteration bound, the non-blocking driver
loop and the blocking call produce the same final writer state — in
particular the same encoder event log, hence a byte-identical archive —
and the same result.  Each `write(NonBlock)` call performs exactly one
pass of the loop body (`stepBody`), as `write_nb_eq` exhibits. -/
theorem nonblock_loop_eq_block (env : Env) (fuel : Nat) (s : WriterState) :
    driveNonBlock env fuel s = write env Mode.Block fuel s := by
  induction fuel generalizing s with
  | zero =>
    unfold driveNonBlock
    rw [write_nb_eq, write_block_eq]
    by_cases hearly : (!s.input.isOpen && s.files.isEmpty) = true
    · rw [if_pos hearly, if_pos hearly]
    · rw [if_neg hearly, if_neg hearly]
      cases hs : stepBody env s with
      | mk t e =>
        cases e with
        | some err =>
          unfold writeBlockAux
          rw [hs]
        | none =>
          unfold writeBlockAux
          rw [hs]
          cases hc : writeCond t <;> simp [hc]
  | succ fuel ih =>
    unfold driveNonBlock
    rw [write_nb_eq, write_block_eq]
    by_cases hearly : (!s.input.isOpen && s.files.isEmpty) = true
    · rw [if_pos hearly, if_pos hearly]
    · rw [if_neg hearly, if_neg hearly]
      cases hs : stepBody env s with
      | mk t e =>
        cases e with
        | some err =>
          unfold writeBlockAux
          rw [hs]
        | none =>
          unfold writeBlockAux
          rw [hs]
          cases hc : writeCond t with
          | false => simp [hc]
          | true =>
            simp only [hc]
            simp only [if_pos]
            rw [ih t, write_block_eq, if_neg (by simp [early_false_of_writeCond hc])]

/-- C2: whenever the source of the currently open entry has reached
end-of-data (its stream has no byte left, or `eofbit` is already set)
while `remainingSize > 0` and the buffer is fully extracted, the next
`write` call — in either mode — fails with `FileChanged`, and the encoder
log is left untouched: no data is fabricated to pad the entry and no
`finishEntry` silently truncates it.  This is the situation a file
shrinking between its enqueue-time stat and streaming produces. -/
theorem eod_with_remaining_filechanged (env : Env) (mode : Mode) (fuel : Nat) (s : WriterState)
    (hopen : s.input.isOpen = true)
    (hrem : 0 < s.entry.remainingSize)
    (hdrained : s.buffer.filled ≤ s.buffer.extracted)
    (heod : s.input.eofFlag = true ∨
      (s.input.content.length ≤ s.input.pos ∧ s.buffer.filled < s.buffer.size)) :
    ∃ s', write env mode fuel s = some (s', Except.error Error.FileChanged) ∧
      s'.encLog = s.encLog := by
  have hfill : (doFill s).input.eofFlag = true ∧ (doFill s).buffer.filled = s.buffer.filled ∧
      (doFill s).buffer.extracted = s.buffer.extracted ∧ (doFill s).entry = s.entry ∧
      (doFill s).encLog = s.encLog := by
    rcases heod with he | ⟨hpos, hsz⟩
    · unfold doFill
      rw [if_neg (by simp [he])]
      exact ⟨he, rfl, rfl, rfl, rfl⟩
    · cases hef : s.input.eofFlag
      · unfold doFill
        rw [if_pos (by simp [hef, hsz])]
        unfold InputStream.readsome
        rw [if_pos hpos]
        exact ⟨rfl, by simp, rfl, rfl, rfl⟩
      · unfold doFill
        rw [if_neg (by simp [hef])]
        exact ⟨hef, rfl, rfl, rfl, rfl⟩
  have hflush : doFlush env (doFill s) = (doFill s, none) := by
    unfold doFlush
    rw [if_neg (by rw [hfill.2.1, hfill.2.2.1]; omega)]
  have hcc : checkComplete (doReset (doFill s)) = (doReset (doFill s), some Error.FileChanged) := by
    unfold checkComplete
    rw [if_pos (by
      rw [doReset_input, doReset_entry, hfill.2.2.2.1]
      simp [hfill.1, hrem])]
  have hstep : stepBody env s = (doReset (doFill s), some Error.FileChanged) := by
    unfold stepBody
    rw [if_neg (by simp [hopen])]
    simp only [seqE]
    unfold fillFlush
    rw [if_pos hrem, hflush]
    simp only [seqE]
    exact hcc
  refine ⟨doReset (doFill s), ?_, by rw [doReset_encLog, hfill.2.2.2.2]⟩
  unfold write
  rw [if_neg (by simp [hopen])]
  cases mode with
  | NonBlock =>
    rw [hstep]
  | Block =>
    cases fuel with
    | zero =>
      unfold writeBlockAux
      rw [hstep]
    | succ fuel =>
      unfold writeBlockAux
      rw [hstep]

/-- C3: for every successful `write` call, in either mode, the returned
`State` is `InProgress` exactly when, in the state the call leaves
behind, the queue is non-empty or a file is open whose source is not at
end-of-data or whose buffer is not fully extracted (`specProgress`);
otherwise it is `Finished`.  The code's own condition tests
`extracted >= filled` where the spec says "not fully extracted"
(`extracted < filled`), but the two agree on every state a `write` call
can return, because an open file after a step implies `eofbit` unset,
which makes the inner disjunction true either way. -/
theorem returned_state_iff_specProgress (env : Env) (mode : Mode) (fuel : Nat)
    (s s' : WriterState) (st : State)
    (h : write env mode fuel s = some (s', Except.ok st)) :
    st = State.InProgress ↔ specProgress s' = true := by
  obtain ⟨hiff, heof⟩ := write_ok env mode fuel s s' st h
  rw [hiff]
  have : writeCond s' = specProgress s' := by
    cases ho : s'.input.isOpen
    · unfold writeCond specProgress
      simp [ho]
    · have he := heof ho
      unfold writeCond specProgress
      simp [ho, he]
  rw [this]

/-- C6: `addFile` stats the path and, if the stat fails, returns `false`
leaving the writer — in particular the pending queue — completely
unchanged; if the stat succeeds it appends the path to the tail of the
queue and returns `true`, touching nothing else (the file is not opened
or read: the input stream, buffer, entry and log are unchanged). -/
theorem add_file_spec (env : Env) (s : WriterState) (f : String) :
    ((env.fs f).lstatResult = none → add_file env s f = (s, false)) ∧
    (∀ sz, (env.fs f).lstatResult = some sz →
      add_file env s f = ({ s with files := s.files ++ [f] }, true)) := by
  constructor
  · intro h
    unfold add_file
    rw [if_neg (by simp [h])]
  · intro sz h
    unfold add_file
    rw [if_pos (by simp [h])]

/-- C7: the archive lists entries in exactly the enqueue (FIFO) order:
a blocking `write` that finishes appends to the archive precisely the
headers of the queued paths, in queue order — so if A was enqueued
before B, A's entry precedes B's — and each loop step either leaves the
queue unchanged or pops exactly its head (a popped path is never pushed
back). -/
theorem archive_fifo_order :
    (∀ (env : Env) (fuel : Nat) (s s' : WriterState),
      write env Mode.Block fuel s = some (s', Except.ok State.Finished) →
      headerPaths s'.encLog = headerPaths s.encLog ++ s.files) ∧
    (∀ (env : Env) (s : WriterState),
      (stepBody env s).1.files = s.files ∨ (stepBody env s).1.files = s.files.tail) := by
  constructor
  · intro env fuel s s' h
    rw [write_block_eq] at h
    split at h
    · rename_i he
      injection h with h1
      injection h1 with h1 h2
      subst h1
      simp only [Bool.and_eq_true, Bool.not_eq_true', List.isEmpty_eq_true] at he
      rw [he.2]
      simp
    · have hcons := blockAux_conserv env fuel s s' _ h
      have hfin := blockAux_ok env fuel s s' _ h
      have hfiles : s'.files = [] := (writeCond_false_elim hfin.2.1).1
      rw [hfiles] at hcons
      simpa using hcons
  · intro env s
    exact stepBody_files env s

/-- C8: a `write` call that returns `Finished` leaves the writer with an
empty queue and no open file, and from such a state every further
`write` call — any mode, any fuel, any environment — immediately returns
`Finished` again with the state unchanged: completion is an idempotent
no-op with no side effect on the writer or the archive log. -/
theorem finished_idempotent (env : Env) (mode : Mode) (fuel : Nat) (s s' : WriterState)
    (h : write env mode fuel s = some (s', Except.ok State.Finished)) :
    s'.files = [] ∧ s'.input.isOpen = false ∧
      ∀ (env2 : Env) (mode2 : Mode) (fuel2 : Nat),
        write env2 mode2 fuel2 s' = some (s', Except.ok State.Finished) := by
  obtain ⟨hiff, heof⟩ := write_ok env mode fuel s s' _ h
  have hcond : writeCond s' = false := by
    cases hc : writeCond s'
    · rfl
    · exact absurd (hiff.mpr hc) (by decide)
  obtain ⟨hfiles, hopen⟩ := writeCond_false_elim hcond
  have hopenf : s'.input.isOpen = false := by
    cases ho : s'.input.isOpen
    · rfl
    · have h1 := heof ho
      have h2 := (hopen ho).1
      rw [h1] at h2
      cases h2
  exact ⟨hfiles, hopenf, fun env2 mode2 fuel2 => write_early hopenf hfiles env2 mode2 fuel2⟩

/-- C9: `close` releases the encoder handle, empties the pending queue
without reporting any error (it returns no error by type), closes the
input stream if it was open, and leaves the buffer, the current entry
fields and the produced archive log untouched; it is idempotent, so a
second `close` on the already-closed writer changes nothing. -/
theorem close_spec (s : WriterState) :
    (close s).archiveLive = false ∧ (close s).files = [] ∧ (close s).input.isOpen = false ∧
    (close s).buffer = s.buffer ∧ (close s).encLog = s.encLog ∧ (close s).entry = s.entry ∧
    close (close s) = close s := by
  refine ⟨rfl, rfl, ?_, rfl, rfl, rfl, ?_⟩
  · unfold close
    cases ho : s.input.isOpen <;> simp [InputStream.close, ho]
  · unfold close
    cases ho : s.input.isOpen <;> simp [InputStream.close, ho]

/-- C10: a queued file whose stat size is 0 is archived completely by a
single step of `write(NonBlock)`: the header (size 0) is emitted, the
whole fill/flush block is skipped (`remainingSize` is 0, so nothing is
read and no data write reaches the encoder), the `FileChanged` check
cannot fire (`eofbit` is never set), and the entry is finished and the
source closed within that same step; the call reports `Finished` exactly
when no other file is queued. -/
theorem zero_length_single_step (env : Env) (s : WriterState) (f : String) (rest : List String)
    (hopen : s.input.isOpen = false) (hq : s.files = f :: rest)
    (hfo : (env.fs f).openOk = true) (hsz : (env.fs f).lstatResult = some 0)
    (hhd : env.enc.headerOk = true) :
    write env Mode.NonBlock 0 s =
      some ({ s with
                files := rest
                input := { isOpen := false, content := (env.fs f).content, pos := 0, eofFlag := false }
                entry := { headerLive := false, totalSize := 0, remainingSize := 0 }
                encLog := s.encLog ++ [ArchiveEvent.header f 0, ArchiveEvent.finishEntry] },
            Except.ok (if rest.isEmpty then State.Finished else State.InProgress)) := by
  have hacq : acquire env s =
      ({ s with
          files := rest
          input := { isOpen := true, content := (env.fs f).content, pos := 0, eofFlag := false }
          entry := { headerLive := true, totalSize := 0, remainingSize := 0 }
          encLog := s.encLog ++ [ArchiveEvent.header f 0] }, none) := by
    unfold acquire
    rw [hq]
    dsimp only
    rw [hfo, hsz, hhd]
    simp
  have hstep : stepBody env s =
      ({ s with
          files := rest
          input := { isOpen := false, content := (env.fs f).content, pos := 0, eofFlag := false }
          entry := { headerLive := false, totalSize := 0, remainingSize := 0 }
          encLog := s.encLog ++ [ArchiveEvent.header f 0, ArchiveEvent.finishEntry] }, none) := by
    unfold stepBody
    rw [if_pos (by simp [hopen]), hacq]
    simp only [seqE]
    unfold fillFlush
    rw [if_neg (by simp)]
    unfold checkComplete InputStream.close
    simp
  rw [write_nb_eq, if_neg (by simp [hopen, hq]), hstep]
  dsimp only
  have hw : writeCond { s with
      files := rest
      input := { isOpen := false, content := (env.fs f).content, pos := 0, eofFlag := false }
      entry := { headerLive := false, totalSize := 0, remainingSize := 0 }
      encLog := s.encLog ++ [ArchiveEvent.header f 0, ArchiveEvent.finishEntry] }
        = !rest.isEmpty := by
    unfold writeCond
    simp
  rw [hw]
  cases hrest : rest.isEmpty <;> simp

/-- C4 (code bug): the claim that `0 ≤ extracted ≤ filled ≤ size` holds
at every observation point fails at the very first one.  The C++
`Buffer` constructor (compression.h line 299) initializes only `data`
and `size`, leaving the `size_t` members `filled` and `extracted`
indeterminate, so a freshly opened writer whose indeterminate members
happen to read e.g. `filled = 0, extracted = 1` (parameters `uf`, `ue`
of `mkWriter`) already violates the invariant before any `write`
overwrites them. -/
theorem buffer_offsets_uninitialized :
    ¬ ((mkWriter 4 [] 0 1 0 0).buffer.extracted ≤ (mkWriter 4 [] 0 1 0 0).buffer.filled) := by
  decide

/-- C5 counterexample: `remainingSize` is not monotonically decreasing
and does wrap.  With the file `"grown"` — stat size 1 but a 3-byte
stream, i.e. a file that grew after being stat'd — a single write step
performs `remainingSize -= written` with `written = 3 > 1`, and the
`size_t` subtraction wraps: after the step `totalSize = 1` but
`remainingSize = 2^64 - 2`, far above the `totalSize` it started at. -/
theorem remaining_wrap_counterexample :
    (write envA Mode.NonBlock 0 { initWriter 4 with files := ["grown"] }).map
        (fun p => (p.1.entry.totalSize, p.1.entry.remainingSize))
      = some (1, two64 - 2) ∧ 1 < two64 - 2 := by
  constructor
  · rfl
  · norm_num [two64]

/-- C5 (amended): provided the entry's source never delivers more bytes
than `remainingSize` still owes (buffered-but-unflushed plus unread
stream bytes bounded by `remainingSize` — in particular the file did not
grow after its dequeue-time stat), `remainingSize` starts equal to
`totalSize` (the stat size captured when the entry is opened), and each
loop step decreases it by exactly the number of bytes the encoder
accepted in that step's flush (the bytes appended to the archive log),
with no wrap-around: it is monotonically non-increasing toward 0. -/
theorem remaining_accounting :
    (∀ (env : Env) (s s1 : WriterState) (f : String) (rest : List String) (sz : Nat),
      s.files = f :: rest → (env.fs f).lstatResult = some sz →
      acquire env s = (s1, none) →
      s1.entry.remainingSize = sz ∧ s1.entry.totalSize = sz) ∧
    (∀ (env : Env) (s s' : WriterState), EncSpec.WF env.enc →
      s.input.isOpen = true →
      s.entry.remainingSize < two64 →
      s.buffer.data.length = s.buffer.filled →
      (s.buffer.filled - s.buffer.extracted) + (s.input.content.length - s.input.pos)
          ≤ s.entry.remainingSize →
      stepBody env s = (s', none) →
      s'.entry.remainingSize + dataLen s'.encLog = s.entry.remainingSize + dataLen s.encLog ∧
      s'.entry.remainingSize ≤ s.entry.remainingSize) :=
  ⟨fun env s s1 f rest sz hq hsz h => acquire_start env s s1 f rest sz hq hsz h,
   fun env s s' henc ho hlt hd hb h => step_remaining env s s' henc ho hlt hd hb h⟩

/-! ## Witnesses: the claim theorems applied at concrete runs -/

/-- Witness for C2: on the concrete mid-stream state of the shrunk file,
a blocking `write` fails with `FileChanged` and adds nothing to the
archive log. -/
theorem eod_with_remaining_filechanged_witness :
    ∃ s', write envA Mode.Block 0 wsShrunkMid = some (s', Except.error Error.FileChanged) ∧
      s'.encLog = wsShrunkMid.encLog :=
  eod_with_remaining_filechanged envA Mode.Block 0 wsShrunkMid rfl (by decide) (by decide)
    (Or.inr ⟨by decide, by decide⟩)

/-- Witness for C3: the first non-blocking step on a two-file queue
returns `InProgress`, and the spec predicate indeed holds of the state
it leaves behind. -/
theorem returned_state_iff_specProgress_witness :
    State.InProgress = State.InProgress ↔ specProgress wsAfterOneStep = true :=
  returned_state_iff_specProgress envA Mode.NonBlock 0 wsQueueAB wsAfterOneStep
    State.InProgress rfl

/-- Witness for C5: on the concrete file `"a"` (2 bytes, unchanged),
opening the entry sets `remainingSize = totalSize = 2`, and the step
that streams it decreases `remainingSize` by exactly the 2 accepted
bytes, without wrap. -/
theorem remaining_accounting_witness :
    (wsEntryOpenA.entry.remainingSize = 2 ∧ wsEntryOpenA.entry.totalSize = 2) ∧
    (wsEntryDoneA.entry.remainingSize + dataLen wsEntryDoneA.encLog
        = wsEntryOpenA.entry.remainingSize + dataLen wsEntryOpenA.encLog ∧
      wsEntryDoneA.entry.remainingSize ≤ wsEntryOpenA.entry.remainingSize) :=
  ⟨remaining_accounting.1 envA wsQueueA wsEntryOpenA "a" [] 2 rfl rfl rfl,
   remaining_accounting.2 envA wsEntryOpenA wsEntryDoneA (fun _ _ => le_refl _) rfl
     (by decide) rfl (by decide) rfl⟩

/-- Witness for C6: a missing path is rejected with the writer
unchanged; an existing path is appended to the queue tail. -/
theorem add_file_spec_witness :
    add_file envA (initWriter 4) "missing" = (initWriter 4, false) ∧
    add_file envA (initWriter 4) "a"
      = ({ initWriter 4 with files := (initWriter 4).files ++ ["a"] }, true) :=
  ⟨(add_file_spec envA (initWriter 4) "missing").1 rfl,
   (add_file_spec envA (initWriter 4) "a").2 2 rfl⟩

/-- Witness for C7: the finished blocking run on the queue
`["a", "b"]` produces headers exactly `["a", "b"]` in order, and a step
pops at most the queue head. -/
theorem archive_fifo_order_witness :
    headerPaths wsFinished.encLog = headerPaths wsQueueAB.encLog ++ wsQueueAB.files ∧
    ((stepBody envA wsQueueAB).1.files = wsQueueAB.files ∨
      (stepBody envA wsQueueAB).1.files = wsQueueAB.files.tail) :=
  ⟨archive_fifo_order.1 envA 10 wsQueueAB wsFinished rfl,
   archive_fifo_order.2 envA wsQueueAB⟩

/-- Witness for C8: the finished run leaves an empty queue and closed
input, and a further non-blocking call is an identity no-op returning
`Finished`. -/
theorem finished_idempotent_witness :
    wsFinished.files = [] ∧ wsFinished.input.isOpen = false ∧
      write envA Mode.NonBlock 0 wsFinished = some (wsFinished, Except.ok State.Finished) :=
  ⟨(finished_idempotent envA Mode.Block 10 wsQueueAB wsFinished rfl).1,
   (finished_idempotent envA Mode.Block 10 wsQueueAB wsFinished rfl).2.1,
   (finished_idempotent envA Mode.Block 10 wsQueueAB wsFinished rfl).2.2 envA Mode.NonBlock 0⟩

/-- Witness for C10: the queued empty file `"empty"` is archived by one
non-blocking call — header, finish, source closed — and the call reports
`Finished`. -/
theorem zero_length_single_step_witness :
    write envA Mode.NonBlock 0 { initWriter 4 with files := ["empty"] } =
      some ({ entry := { headerLive := false, totalSize := 0, remainingSize := 0 }
              archiveLive := true
              files := []
              input := { isOpen := false, content := [], pos := 0, eofFlag := false }
              buffer := { data := [], size := 4, filled := 0, extracted := 0 }
              encLog := [ArchiveEvent.header "empty" 0, ArchiveEvent.finishEntry]
              dataCalls := 0 },
            Except.ok State.Finished) :=
  zero_length_single_step envA { initWriter 4 with files := ["empty"] } "empty" []
    rfl rfl rfl rfl rfl

end compression
